import Mathlib

/-
  Verification of `src/convert.py` (markdown-to-docx converter).

  Strings are modelled as `List Char`.  Python regular-expression behaviour
  is modelled by explicit matching functions that follow the backtracking
  semantics of the `re` module on the concrete patterns used by the source
  (documented at each definition).  Filesystem existence and the network
  rendering endpoint are modelled as oracles passed in as parameters, and
  side effects (file writes, network requests, directory creation) are
  returned explicitly.
-/

namespace Convert

/-! ## Character classes -/

/-- The Unicode byte-order mark U+FEFF. -/
def bomChar : Char := Char.ofNat 0xFEFF

/-- Python `str.lstrip('﻿')`: removes every leading BOM character
(`convert.py` line 155). -/
def stripBOM (s : List Char) : List Char := s.dropWhile (fun c => c = bomChar)

/-- The regex character class `[ \t]`. -/
def isSpaceTab (c : Char) : Bool := c = ' ' || c = '\t'

/-- Greedy `[ \t]*`: consumes the maximal run of spaces and tabs.  The
characters that can follow it in the patterns of `convert.py` (`\r`, `\n`)
are not in the class, so no backtracking into the run is ever needed. -/
def dropSpaceTabs (s : List Char) : List Char := s.dropWhile isSpaceTab

/-- Python's `\s` class for `str` patterns (`Py_UNICODE_ISSPACE`), which is
also the set used by `str.strip()` / `str.isspace()`. -/
def isWS (c : Char) : Bool :=
  c = ' ' || c = '\t' || c = '\n' || c = '\r' ||
  c = Char.ofNat 0x0b || c = Char.ofNat 0x0c ||
  c = Char.ofNat 0x1c || c = Char.ofNat 0x1d ||
  c = Char.ofNat 0x1e || c = Char.ofNat 0x1f ||
  c = Char.ofNat 0x85 || c = Char.ofNat 0xa0 ||
  c = Char.ofNat 0x1680 ||
  (Char.ofNat 0x2000 ≤ c && c ≤ Char.ofNat 0x200a) ||
  c = Char.ofNat 0x2028 || c = Char.ofNat 0x2029 ||
  c = Char.ofNat 0x202f || c = Char.ofNat 0x205f ||
  c = Char.ofNat 0x3000

/-! ## Front-matter stripper (`strip_yaml_front_matter`, convert.py 148-162)

The Python code is
  `re.sub(r'\A---[ \t]*\r?\n.*?\r?\n(?:---|\.\.\.)[ \t]*\r?\n', '', text,
          count=1, flags=re.DOTALL)`
after `text = text.lstrip('﻿')`.

The pattern is anchored at the start, so `re.sub` with `count=1` removes the
single leftmost match if any.  The only nondeterministic piece is the lazy
`.*?` (DOTALL: `.` matches `\n` as well): the engine extends it one character
at a time, so the overall match ends at the *earliest* position at which the
closing-delimiter tail `\r?\n(?:---|\.\.\.)[ \t]*\r?\n` matches.  Each `\r?`
is greedy, but since `\r` and `\n` are distinct characters the tail match at
a fixed position is deterministic. -/

/-- Pattern `\r?\n` (greedy optional `\r`): returns the remainder after the match. -/
def matchNewline : List Char → Option (List Char)
  | [] => none
  | c :: rest =>
    if c = '\n' then some rest
    else if c = '\r' then
      match rest with
      | c2 :: rest2 => if c2 = '\n' then some rest2 else none
      | [] => none
    else none

/-- The closing alternation `(?:---|\.\.\.)`. -/
def matchDelim : List Char → Option (List Char)
  | '-' :: '-' :: '-' :: rest => some rest
  | '.' :: '.' :: '.' :: rest => some rest
  | _ => none

/-- The closing tail `\r?\n(?:---|\.\.\.)[ \t]*\r?\n` at a fixed position. -/
def matchCloseAt (s : List Char) : Option (List Char) :=
  match matchNewline s with
  | none => none
  | some r =>
    match matchDelim r with
    | none => none
    | some r2 => matchNewline (dropSpaceTabs r2)

/-- The lazy `.*?` followed by the closing tail: the match ends at the
earliest offset at which `matchCloseAt` succeeds. -/
def findClose : List Char → Option (List Char)
  | [] => none
  | c :: t =>
    match matchCloseAt (c :: t) with
    | some r => some r
    | none => findClose t

/-- The anchored opening `\A---[ \t]*\r?\n`. -/
def matchOpenMarker (s : List Char) : Option (List Char) :=
  match s with
  | '-' :: '-' :: '-' :: rest => matchNewline (dropSpaceTabs rest)
  | _ => none

/-- Model of `strip_yaml_front_matter` (convert.py 148-162): strip every leading BOM,
then remove the single leading front-matter block if the whole pattern
matches; otherwise return the BOM-stripped text unchanged (the function only
logs in either case). -/
def strip_yaml_front_matter (text : List Char) : List Char :=
  let t := stripBOM text
  match matchOpenMarker t with
  | none => t
  | some rest =>
    match findClose rest with
    | none => t
    | some r => r

-- Sanity checks against hand-traces of the Python regex:
example : strip_yaml_front_matter ("---\ntitle: x\n---\nbody".toList) = "body".toList := by decide
example : strip_yaml_front_matter ("---\r\na\r\n...\r\nbody".toList) = "body".toList := by decide
example : strip_yaml_front_matter ("---\n---\n".toList) = "---\n---\n".toList := by decide
example : strip_yaml_front_matter ("---\n\n---\n".toList) = [] := by decide
example : strip_yaml_front_matter ("no front matter".toList) = "no front matter".toList := by decide

/-! ### Building blocks for front-matter theorems -/

/-- A line ending: LF or CRLF, as tolerated by the `\r?\n` in the pattern. -/
def nlOf (crlf : Bool) : List Char := if crlf then ['\r', '\n'] else ['\n']

/-- The closing delimiter: `---` or `...`. -/
def closeOf (dots : Bool) : List Char :=
  if dots then ['.', '.', '.'] else ['-', '-', '-']

/-- An optional leading byte-order mark. -/
def bomOf (b : Bool) : List Char := if b then [bomChar] else []

theorem nlOf_ne_nil (b : Bool) : nlOf b ≠ [] := by cases b <;> simp [nlOf]

theorem matchNewline_nlOf (b : Bool) (l : List Char) :
    matchNewline (nlOf b ++ l) = some l := by
  cases b <;> simp [nlOf, matchNewline]

theorem matchNewline_none {c : Char} (h1 : c ≠ '\n') (h2 : c ≠ '\r')
    (l : List Char) : matchNewline (c :: l) = none := by
  simp [matchNewline, h1, h2]

theorem dropSpaceTabs_nlOf (b : Bool) (l : List Char) :
    dropSpaceTabs (nlOf b ++ l) = nlOf b ++ l := by
  cases b <;> simp [nlOf, dropSpaceTabs, isSpaceTab]

theorem matchCloseAt_none {c : Char} (h1 : c ≠ '\n') (h2 : c ≠ '\r')
    (l : List Char) : matchCloseAt (c :: l) = none := by
  simp [matchCloseAt, matchNewline_none h1 h2]

/-- At the end of the metadata line, the closing tail matches and consumes
exactly `nl ++ close ++ nl`. -/
theorem matchCloseAt_close (c2 dots c3 : Bool) (TAIL : List Char) :
    matchCloseAt (nlOf c2 ++ (closeOf dots ++ (nlOf c3 ++ TAIL))) = some TAIL := by
  cases dots <;>
    simp [matchCloseAt, matchNewline_nlOf, closeOf, matchDelim,
      dropSpaceTabs_nlOf, matchNewline_nlOf]

/-- Lemma: `findClose` skips a newline-free metadata line and fires at the first
closing tail. -/
theorem findClose_skip (M : List Char) {rest R : List Char}
    (hM : ∀ ch ∈ M, ch ≠ '\n' ∧ ch ≠ '\r') (hne : rest ≠ [])
    (hc : matchCloseAt rest = some R) :
    findClose (M ++ rest) = some R := by
  induction M with
  | nil =>
    cases rest with
    | nil => exact absurd rfl hne
    | cons r t => simp [findClose, hc]
  | cons ch M' ih =>
    have hch := hM ch (by simp)
    have hnone : matchCloseAt (ch :: (M' ++ rest)) = none :=
      matchCloseAt_none hch.1 hch.2 _
    simpa [findClose, hnone] using ih fun c hc' => hM c (by simp [hc'])

theorem stripBOM_bomOf_dash (b : Bool) (l : List Char) :
    stripBOM (bomOf b ++ '-' :: l) = '-' :: l := by
  have h : ¬(('-' : Char) = bomChar) := by decide
  cases b <;> simp [bomOf, stripBOM, h]

theorem matchOpenMarker_open (c1 : Bool) (rest : List Char) :
    matchOpenMarker ('-' :: '-' :: '-' :: (nlOf c1 ++ rest)) = some rest := by
  simp [matchOpenMarker, dropSpaceTabs_nlOf, matchNewline_nlOf]

/-! ### C1 -/

/-- C1, counterexample: the stripper is *not* idempotent.  On a document
whose front-matter block is immediately followed by a second block, the first
application strips one block and the second application strips the next one,
so applying it twice differs from applying it once. -/
theorem strip_yaml_not_idempotent_cex :
    strip_yaml_front_matter
        (strip_yaml_front_matter ("---\na\n---\n---\nb\n---\nrest".toList)) ≠
      strip_yaml_front_matter ("---\na\n---\n---\nb\n---\nrest".toList) := by
  decide

/-- C1 (amended): the stripper is idempotent on every text whose
once-stripped form neither starts with a byte-order mark nor with an opening
`---` marker line; in general a second application may strip a further
leading block (or a newly exposed BOM). -/
theorem strip_yaml_idempotent_on_stable (s : List Char)
    (hbom : stripBOM (strip_yaml_front_matter s) = strip_yaml_front_matter s)
    (hopen : matchOpenMarker (strip_yaml_front_matter s) = none) :
    strip_yaml_front_matter (strip_yaml_front_matter s) =
      strip_yaml_front_matter s := by
  set X := strip_yaml_front_matter s with hX
  simp only [strip_yaml_front_matter]
  rw [hbom, hopen]

/-- Witness for C1 (amended) at a concrete already-stripped document. -/
theorem strip_yaml_idempotent_on_stable_witness :
    stripBOM (strip_yaml_front_matter ("---\na\n---\nbody".toList)) =
        strip_yaml_front_matter ("---\na\n---\nbody".toList) ∧
      matchOpenMarker (strip_yaml_front_matter ("---\na\n---\nbody".toList)) =  none ∧
      strip_yaml_front_matter (strip_yaml_front_matter ("---\na\n---\nbody".toList)) =
        strip_yaml_front_matter ("---\na\n---\nbody".toList) :=
  ⟨by decide, by decide,
    strip_yaml_idempotent_on_stable _ (by decide) (by decide)⟩

/-! ### C2 -/

/-- C2, counterexample: a text that starts with a byte-order mark (and
therefore not with a `---` marker) is *not* returned unchanged: the BOM is
unconditionally removed by `text.lstrip('﻿')` before the pattern is tried. -/
theorem strip_yaml_nonmatching_changed_cex :
    ((bomChar :: "hello".toList).take 3 ≠ "---".toList) ∧
      strip_yaml_front_matter (bomChar :: "hello".toList) ≠
        bomChar :: "hello".toList := by
  decide

/-- C2 (amended): for every text that, after removal of its leading
byte-order marks, does not begin with an opening `---` marker line, the
stripper returns the text with only those leading BOMs removed (in
particular unchanged when no BOM is present); it only logs that nothing was
stripped. -/
theorem strip_yaml_no_marker (s : List Char)
    (h : matchOpenMarker (stripBOM s) = none) :
    strip_yaml_front_matter s = stripBOM s := by
  simp only [strip_yaml_front_matter]
  rw [h]

/-- Witness for C2 (amended) at a concrete marker-free document. -/
theorem strip_yaml_no_marker_witness :
    matchOpenMarker (stripBOM "plain text".toList) = none ∧
      strip_yaml_front_matter "plain text".toList = stripBOM "plain text".toList :=
  ⟨by decide, strip_yaml_no_marker _ (by decide)⟩

/-! ### C3 -/

/-- C3: for every text consisting of an opening `---` line, one line of
arbitrary newline-free metadata, and a closing `---` or `...` line, the
stripper removes exactly that leading span (together with an optional
byte-order mark) and returns the tail untouched — for any mix of LF and
CRLF line endings and for an arbitrary remainder of the document, so at
most this one leading block is ever removed. -/
theorem strip_yaml_removes_exactly_block (b c1 c2 c3b dots : Bool)
    (M TAIL : List Char) (hM : ∀ ch ∈ M, ch ≠ '\n' ∧ ch ≠ '\r') :
    strip_yaml_front_matter
        (bomOf b ++ '-' :: '-' :: '-' ::
          (nlOf c1 ++ M ++ nlOf c2 ++ closeOf dots ++ nlOf c3b ++ TAIL)) =
      TAIL := by
  have h1 : findClose (M ++ (nlOf c2 ++ (closeOf dots ++ (nlOf c3b ++ TAIL)))) =
      some TAIL :=
    findClose_skip M hM (by simp [nlOf_ne_nil c2])
      (matchCloseAt_close c2 dots c3b TAIL)
  simp only [strip_yaml_front_matter, List.append_assoc, stripBOM_bomOf_dash,
    matchOpenMarker_open, h1]

/-- Witness for C3: a concrete BOM-led CRLF document with `...` closing. -/
theorem strip_yaml_removes_exactly_block_witness :
    (∀ ch ∈ "title: hello".toList, ch ≠ '\n' ∧ ch ≠ '\r') ∧
      strip_yaml_front_matter
          (bomOf true ++ '-' :: '-' :: '-' ::
            (nlOf true ++ "title: hello".toList ++ nlOf false ++
              closeOf true ++ nlOf true ++ "# Doc\nbody\n".toList)) =
        "# Doc\nbody\n".toList :=
  ⟨by decide,
    strip_yaml_removes_exactly_block true true false true true _ _ (by decide)⟩

/-! ## Horizontal-rule normalizer (convert.py 252)

`content = re.sub(r'^---\s*$', '***', content, flags=re.MULTILINE)`

In MULTILINE mode `^` matches at the start of the text and right after every
`'\n'`; `$` matches at the end of the text and right before every `'\n'`.
`\s*` is greedy and `\s` includes `'\n'` itself, so the engine extends the
whitespace run as far as possible and then backtracks to the *longest*
prefix of the run after which `$` matches.  `re.sub` replaces every
non-overlapping match, scanning left to right and resuming right after each
replaced span (positions are those of the original text). -/

/-- Greedy `\s*$` with backtracking: consume the longest whitespace run
such that the position right after it is the end of the text or carries a
`'\n'`.  Returns the unconsumed remainder, which is therefore always `[]`
or a list starting with `'\n'`. -/
def hruleTail : List Char → Option (List Char)
  | [] => some []
  | c :: rest =>
    if isWS c then
      match hruleTail rest with
      | some r => some r
      | none => if c = '\n' then some (c :: rest) else none
    else none

/-- One attempt of `^---\s*$` at a position where `^` matches. -/
def matchHrule : List Char → Option (List Char)
  | c1 :: c2 :: c3 :: rest =>
    if c1 = '-' then if c2 = '-' then if c3 = '-' then hruleTail rest
      else none else none else none
  | _ => none

theorem hruleTail_length {s r : List Char} (h : hruleTail s = some r) :
    r.length ≤ s.length := by
  induction s generalizing r with
  | nil =>
    simp only [hruleTail, Option.some.injEq] at h
    simp [← h]
  | cons c rest ih =>
    by_cases hws : isWS c
    · cases hrec : hruleTail rest with
      | some r' =>
        simp only [hruleTail, hws, if_true, hrec] at h
        have := ih hrec
        simp only [Option.some.injEq] at h
        subst h
        simp; omega
      | none =>
        simp only [hruleTail, hws, if_true, hrec] at h
        by_cases hc : c = '\n'
        · simp only [hc, if_true, Option.some.injEq] at h
          simp [← h, hc]
        · simp [hc] at h
    · simp [hruleTail, hws] at h

theorem matchHrule_length {s r : List Char} (h : matchHrule s = some r) :
    r.length < s.length := by
  match s with
  | [] => simp [matchHrule] at h
  | [c1] => simp [matchHrule] at h
  | [c1, c2] => simp [matchHrule] at h
  | c1 :: c2 :: c3 :: rest =>
    simp only [matchHrule] at h
    split at h
    · split at h
      · split at h
        · have := hruleTail_length h
          simp; omega
        · exact absurd h (by simp)
      · exact absurd h (by simp)
    · exact absurd h (by simp)

/-- The `re.sub` scan.  `atStart` records whether `^` matches at the current
position (start of text or right after a `'\n'`).  After a successful match
the remainder is `[]` or starts with `'\n'`, where no new match can begin
(the pattern starts with `'-'`), so the flag passed there is irrelevant and
`false` is used. -/
def hruleScan (atStart : Bool) (s : List Char) : List Char :=
  match s with
  | [] => []
  | c :: rest =>
    if atStart then
      match h : matchHrule (c :: rest) with
      | some r => '*' :: '*' :: '*' :: hruleScan false r
      | none => c :: hruleScan (decide (c = '\n')) rest
    else c :: hruleScan (decide (c = '\n')) rest
termination_by s.length
decreasing_by
  · exact matchHrule_length h
  · simp
  · simp

/-- The whole substitution `re.sub(r'^---\s*$', '***', content, flags=re.MULTILINE)`. -/
def hruleSub (s : List Char) : List Char := hruleScan true s

/-! ### Step lemmas for the scanner -/

theorem hruleScan_nil (a : Bool) : hruleScan a [] = [] := by rw [hruleScan]

theorem hruleScan_false_cons (c : Char) (rest : List Char) :
    hruleScan false (c :: rest) = c :: hruleScan (decide (c = '\n')) rest := by
  rw [hruleScan]
  simp

theorem hruleScan_true_match {c : Char} {rest r : List Char}
    (h : matchHrule (c :: rest) = some r) :
    hruleScan true (c :: rest) = '*' :: '*' :: '*' :: hruleScan false r := by
  rw [hruleScan]
  simp only [eq_self_iff_true, if_true]
  split
  · rename_i r' heq; rw [h] at heq; cases heq; rfl
  · rename_i heq; rw [h] at heq; cases heq

theorem hruleScan_true_nomatch {c : Char} {rest : List Char}
    (h : matchHrule (c :: rest) = none) :
    hruleScan true (c :: rest) = c :: hruleScan (decide (c = '\n')) rest := by
  rw [hruleScan]
  simp only [eq_self_iff_true, if_true]
  split
  · rename_i r' heq; rw [h] at heq; cases heq
  · rfl

/-- A line (no `'\n'`) that the pattern `^---\s*$` rewrites: `---` followed
only by (trailing) whitespace — no leading whitespace is allowed. -/
def lineMatches : List Char → Bool
  | c1 :: c2 :: c3 :: rest => c1 = '-' && c2 = '-' && c3 = '-' && rest.all isWS
  | _ => false

theorem hruleTail_none_of_nonws {rest : List Char} (tail : List Char)
    (hnl : '\n' ∉ rest) (hnw : rest.all isWS = false) :
    hruleTail (rest ++ tail) = none := by
  induction rest with
  | nil => simp at hnw
  | cons c rest' ih =>
    by_cases hws : isWS c
    · have hnw' : rest'.all isWS = false := by
        simp only [List.all_cons, hws, Bool.true_and] at hnw; exact hnw
      have hc : ¬(c = '\n') := fun h => hnl (by simp [h])
      have ih' := ih (fun h => hnl (by simp [h])) hnw'
      simp [hruleTail, hws, ih', hc]
    · simp [hruleTail, hws]

theorem hruleTail_ws_propagate {ws l r : List Char} (hws : ws.all isWS = true)
    (h : hruleTail l = some r) : hruleTail (ws ++ l) = some r := by
  induction ws with
  | nil => simpa
  | cons c ws' ih =>
    simp only [List.all_cons, Bool.and_eq_true] at hws
    simp [hruleTail, hws.1, ih hws.2]

theorem matchHrule_ne_dash1 {c : Char} (h : ¬(c = '-')) (rest : List Char) :
    matchHrule (c :: rest) = none := by
  match rest with
  | [] => simp [matchHrule]
  | [c2] => simp [matchHrule]
  | c2 :: c3 :: rest' => simp [matchHrule, h]

theorem matchHrule_ne_dash2 {c2 : Char} (c1 : Char) (h : ¬(c2 = '-'))
    (rest : List Char) : matchHrule (c1 :: c2 :: rest) = none := by
  match rest with
  | [] => simp [matchHrule]
  | c3 :: rest' => simp [matchHrule, h]

theorem matchHrule_ne_dash3 {c3 : Char} (c1 c2 : Char) (h : ¬(c3 = '-'))
    (rest : List Char) : matchHrule (c1 :: c2 :: c3 :: rest) = none := by
  simp [matchHrule, h]

/-- A matching line followed by a tail on which `\s*$` succeeds. -/
theorem matchHrule_matching {l tail r : List Char} (hm : lineMatches l = true)
    (ht : hruleTail tail = some r) : matchHrule (l ++ tail) = some r := by
  match l with
  | [] => simp [lineMatches] at hm
  | [c1] => simp [lineMatches] at hm
  | [c1, c2] => simp [lineMatches] at hm
  | c1 :: c2 :: c3 :: rest =>
    simp only [lineMatches, Bool.and_eq_true, decide_eq_true_eq] at hm
    obtain ⟨⟨⟨h1, h2⟩, h3⟩, h4⟩ := hm
    subst h1; subst h2; subst h3
    simp only [List.cons_append, matchHrule, if_true]
    exact hruleTail_ws_propagate h4 ht

/-- A non-matching newline-free line never starts a match, whatever follows
at the next line boundary. -/
theorem matchHrule_nonmatching {l : List Char} (hnl : '\n' ∉ l)
    (hm : lineMatches l = false) {tail : List Char}
    (ht : tail = [] ∨ ∃ r, tail = '\n' :: r) :
    matchHrule (l ++ tail) = none := by
  match l with
  | [] =>
    rcases ht with h | ⟨r, h⟩ <;> subst h
    · simp [matchHrule]
    · exact matchHrule_ne_dash1 (by decide) r
  | [c1] =>
    by_cases h1 : c1 = '-'
    · subst h1
      rcases ht with h | ⟨r, h⟩ <;> subst h
      · simp [matchHrule]
      · exact matchHrule_ne_dash2 _ (by decide) r
    · exact matchHrule_ne_dash1 h1 _
  | [c1, c2] =>
    by_cases h1 : c1 = '-'
    · by_cases h2 : c2 = '-'
      · subst h1; subst h2
        rcases ht with h | ⟨r, h⟩ <;> subst h
        · simp [matchHrule]
        · exact matchHrule_ne_dash3 _ _ (by decide) r
      · exact matchHrule_ne_dash2 _ h2 _
    · exact matchHrule_ne_dash1 h1 _
  | c1 :: c2 :: c3 :: rest =>
    by_cases h1 : c1 = '-'
    · by_cases h2 : c2 = '-'
      · by_cases h3 : c3 = '-'
        · subst h1; subst h2; subst h3
          have h4 : rest.all isWS = false := by
            simpa [lineMatches] using hm
          simp only [List.cons_append, matchHrule, if_true]
          exact hruleTail_none_of_nonws tail (fun h => hnl (by simp [h])) h4
        · exact matchHrule_ne_dash3 _ _ h3 _
      · exact matchHrule_ne_dash2 _ h2 _
    · exact matchHrule_ne_dash1 h1 _

/-- Copying mid-line: with the line-start flag off and no newline in `xs`,
the scan copies `xs` verbatim. -/
theorem hruleScan_copy (xs : List Char) (hnl : '\n' ∉ xs) (t : List Char) :
    hruleScan false (xs ++ t) = xs ++ hruleScan false t := by
  induction xs with
  | nil => rfl
  | cons c xs' ih =>
    have hc : ¬(c = '\n') := fun h => hnl (by simp [h])
    rw [List.cons_append, hruleScan_false_cons, decide_eq_false hc,
      ih (fun h => hnl (by simp [h])), List.cons_append]

/-- A non-matching line followed by a separator is copied verbatim. -/
theorem hruleScan_line_copy {l : List Char} (hnl : '\n' ∉ l)
    (hm : lineMatches l = false) (rest : List Char) :
    hruleScan true (l ++ '\n' :: rest) = l ++ '\n' :: hruleScan true rest := by
  have hmm := matchHrule_nonmatching hnl hm (Or.inr ⟨rest, rfl⟩)
  match l with
  | [] =>
    rw [List.nil_append, hruleScan_true_nomatch (by simpa using hmm)]
    simp [hruleScan_false_cons]
  | c :: l' =>
    have hc : ¬(c = '\n') := fun h => hnl (by simp [h])
    rw [List.cons_append] at hmm ⊢
    rw [hruleScan_true_nomatch hmm, decide_eq_false hc,
      hruleScan_copy _ (fun h => hnl (by simp [h])),
      hruleScan_false_cons]
    simp

/-- A non-matching line at the end of the text is copied verbatim. -/
theorem hruleScan_line_copy_last {l : List Char} (hnl : '\n' ∉ l)
    (hm : lineMatches l = false) : hruleScan true l = l := by
  have hmm := matchHrule_nonmatching hnl hm (Or.inl rfl)
  match l with
  | [] => exact hruleScan_nil true
  | c :: l' =>
    have hc : ¬(c = '\n') := fun h => hnl (by simp [h])
    rw [List.append_nil] at hmm
    rw [hruleScan_true_nomatch hmm, decide_eq_false hc]
    have := hruleScan_copy l' (fun h => hnl (by simp [h])) []
    rw [List.append_nil] at this
    rw [this, hruleScan_nil, List.append_nil]

/-- A matching line at the end of the text becomes `***`. -/
theorem hruleScan_line_match_last {l : List Char} (hnl : '\n' ∉ l)
    (hm : lineMatches l = true) :
    hruleScan true l = ['*', '*', '*'] := by
  have hmm : matchHrule (l ++ ([] : List Char)) = some [] :=
    matchHrule_matching hm rfl
  rw [List.append_nil] at hmm
  match l with
  | [] => simp [lineMatches] at hm
  | c :: l' => rw [hruleScan_true_match hmm, hruleScan_nil]

/-- A matching line whose successor line is not whitespace-only becomes
`***`, keeping the separator. -/
theorem hruleScan_line_match {l l' : List Char} (hnl : '\n' ∉ l)
    (hm : lineMatches l = true) (hnl' : '\n' ∉ l')
    (hw' : l'.all isWS = false) (t2 : List Char) :
    hruleScan true (l ++ '\n' :: (l' ++ t2)) =
      '*' :: '*' :: '*' :: '\n' :: hruleScan true (l' ++ t2) := by
  have htail : hruleTail ('\n' :: (l' ++ t2)) = some ('\n' :: (l' ++ t2)) := by
    have hnone := hruleTail_none_of_nonws t2 hnl' hw'
    simp [hruleTail, isWS, hnone]
  have hmm := matchHrule_matching hm htail
  match l with
  | [] => simp [lineMatches] at hm
  | c :: lrest =>
    rw [List.cons_append] at hmm ⊢
    rw [hruleScan_true_match hmm, hruleScan_false_cons]
    simp

/-- Model of `'\n'.join(lines)`: reassemble a text from its (newline-free) lines. -/
def joinRest : List (List Char) → List Char
  | [] => []
  | l :: ls => '\n' :: (l ++ joinRest ls)

def joinLines : List (List Char) → List Char
  | [] => []
  | l :: ls => l ++ joinRest ls

/-! ### C4 -/

/-- C4, counterexample: a line that consists solely of `---` surrounded
by *leading* whitespace is not rewritten: the pattern `^---\s*$` requires
the dashes to sit directly at the line start, so `" ---"` is left untouched
even though the claim says it becomes `***`. -/
theorem hrule_leading_ws_not_rewritten_cex :
    hruleSub (' ' :: '-' :: '-' :: '-' :: []) =
        ' ' :: '-' :: '-' :: '-' :: [] ∧
      (' ' :: '-' :: '-' :: '-' :: []) ≠ ('*' :: '*' :: '*' :: ([] : List Char)) :=
  ⟨hruleScan_line_copy_last (by decide) (by decide), by decide⟩

/-- C4 (amended): after front-matter stripping, every line consisting of
`---` followed only by optional *trailing* whitespace is rewritten to `***`
and every other line is left untouched, provided no whitespace-only line
(including an empty line) immediately follows such a `---` line; a line
with leading whitespace before the dashes is never rewritten, and when a
whitespace-only line follows a rewritten line the greedy `\s*` absorbs it
into the replacement. -/
theorem hruleSub_lines (ls : List (List Char))
    (hnl : ∀ l ∈ ls, '\n' ∉ l)
    (hchain : List.Chain'
      (fun a b => lineMatches a = true → b.all isWS = false) ls) :
    hruleSub (joinLines ls) =
      joinLines (ls.map fun l => if lineMatches l then ['*', '*', '*'] else l) := by
  induction ls with
  | nil => simp [hruleSub, joinLines, hruleScan_nil]
  | cons l rest ih =>
    have hl : '\n' ∉ l := hnl l (by simp)
    cases rest with
    | nil =>
      by_cases hm : lineMatches l
      · simpa [hruleSub, joinLines, joinRest, hm] using
          hruleScan_line_match_last hl hm
      · simpa [hruleSub, joinLines, joinRest, hm] using
          hruleScan_line_copy_last hl (by simpa using hm)
    | cons l' rest' =>
      have hl' : '\n' ∉ l' := hnl l' (by simp)
      have hchain' : List.Chain'
          (fun a b => lineMatches a = true → b.all isWS = false) (l' :: rest') :=
        (List.chain'_cons.mp hchain).2
      have ihrec := ih (fun x hx => hnl x (by simp [hx])) hchain'
      by_cases hm : lineMatches l
      · have hw' : l'.all isWS = false := (List.chain'_cons.mp hchain).1 hm
        have step := hruleScan_line_match hl hm hl' hw' (joinRest rest')
        simp only [hruleSub, joinLines, joinRest] at ihrec ⊢
        rw [step, ihrec]
        simp [hm, joinRest]
      · have step := hruleScan_line_copy hl (by simpa using hm) (l' ++ joinRest rest')
        simp only [hruleSub, joinLines, joinRest] at ihrec ⊢
        rw [step, ihrec]
        simp [hm, joinRest]

/-- Witness for C4 (amended) on a concrete three-line document. -/
theorem hruleSub_lines_witness :
    (∀ l ∈ ["--- ".toList, "text".toList, "---".toList], '\n' ∉ l) ∧
      List.Chain' (fun a b => lineMatches a = true → b.all isWS = false)
        ["--- ".toList, "text".toList, "---".toList] ∧
      hruleSub (joinLines ["--- ".toList, "text".toList, "---".toList]) =
        joinLines (["--- ".toList, "text".toList, "---".toList].map
          fun l => if lineMatches l then ['*', '*', '*'] else l) :=
  ⟨by decide,
    List.chain'_cons.mpr ⟨by decide,
      List.chain'_cons.mpr ⟨by decide, List.chain'_singleton _⟩⟩,
    hruleSub_lines _ (by decide)
      (List.chain'_cons.mpr ⟨by decide,
        List.chain'_cons.mpr ⟨by decide, List.chain'_singleton _⟩⟩)⟩

/-! ## Direction detector (`detect_direction`, convert.py 326-337) -/

/-- ASCII lowercasing; `str.lower()` restricted to the ASCII range, which is
all that the extension comparison in `detect_direction` relies on. -/
def asciiLower (s : List Char) : List Char :=
  s.map fun c => if 'A' ≤ c && c ≤ 'Z' then Char.ofNat (c.toNat + 32) else c

/-- Index of the last occurrence of a character (`str.rfind`). -/
def lastIndexOf (ch : Char) : List Char → Option Nat
  | [] => none
  | c :: rest =>
    match lastIndexOf ch rest with
    | some i => some (i + 1)
    | none => if c = ch then some 0 else none

/-- Model of `os.path.splitext` (CPython `genericpath._splitext` with POSIX `sep='/'`
and `extsep='.'`): split off the extension at the last dot, provided the
last dot lies after the last separator and at least one character of the
basename before it is not itself a dot (so a leading-dots-only basename has
no extension). -/
def splitext (p : List Char) : List Char × List Char :=
  match lastIndexOf '.' p with
  | none => (p, [])
  | some d =>
    let f : Nat :=
      match lastIndexOf '/' p with
      | none => 0
      | some s => s + 1
    if f ≤ d && ((p.drop f).take (d - f)).any (fun c => c != '.') then
      (p.take d, p.drop d)
    else (p, [])

inductive Direction where
  | docx2md : Direction
  | md2out : Direction
deriving DecidableEq

/-- Model of `detect_direction` (convert.py 326-337): classify by the lowercased
input extension and substitute the extension in the default output path
(the Python-side default for `output_format` is `'docx'`). -/
def detect_direction (input_file : List Char) (output_format : List Char) :
    Direction × List Char :=
  let ext := asciiLower (splitext input_file).2
  let base := (splitext input_file).1
  if ext = ".docx".toList then (Direction.docx2md, base ++ ".md".toList)
  else (Direction.md2out, base ++ '.' :: output_format)

/-- Lemma: `splitext` splits the path: base and extension recompose to the path,
so "replacing the extension" means appending to the dot-free base. -/
theorem splitext_append (p : List Char) :
    (splitext p).1 ++ (splitext p).2 = p := by
  rcases h : lastIndexOf '.' p with _ | d
  · simp [splitext, h]
  · simp only [splitext, h]
    split
    · simp [List.take_append_drop]
    · simp

/-! ### C7 -/

/-- C7: `detect_direction` is a pure function of the input path and the
requested format: it yields `docx2md` with the extension replaced by `.md`
exactly when the input extension lowercases to `.docx`, and otherwise
`md2out` with the extension replaced by the requested format; the base and
extension always recompose to the input path, and the spec's two examples
(plus an uppercase variant showing case-insensitivity) evaluate as
claimed. -/
theorem detect_direction_spec (p fmt : List Char) :
    detect_direction p fmt =
        (if asciiLower (splitext p).2 = ".docx".toList
          then (Direction.docx2md, (splitext p).1 ++ ".md".toList)
          else (Direction.md2out, (splitext p).1 ++ '.' :: fmt)) ∧
      (splitext p).1 ++ (splitext p).2 = p ∧
      detect_direction "report.docx".toList "docx".toList =
        (Direction.docx2md, "report.md".toList) ∧
      detect_direction "notes.md".toList "pdf".toList =
        (Direction.md2out, "notes.pdf".toList) ∧
      detect_direction "REPORT.DOCX".toList "docx".toList =
        (Direction.docx2md, "REPORT.md".toList) :=
  ⟨rfl, splitext_append p, by decide, by decide, by decide⟩

/-! ## Mermaid diagram renderer (`render_mermaid_blocks`, convert.py 165-211)

The pattern is `re.compile(r'```mermaid\s*\n(.*?)```', flags=re.DOTALL)`;
`finditer` produces all non-overlapping matches, leftmost first, resuming
after each match's end.  The loop then walks `enumerate(reversed(matches), 1)`
so the text is spliced from the last match backwards (keeping earlier
offsets valid) while `diagram_num = len(matches) - i + 1` is exactly the
1-based document-order position.  One network round trip and one file write
happen per diagram inside a `try` block; any failure leaves that block's
text untouched and only logs warnings.  The endpoint is modelled as an
oracle from the stripped diagram source to `Option` image bytes; the URL
`https://mermaid.ink/img/{urlsafe_b64encode(code)}` is a fixed injective
encoding of exactly that source, so requests are recorded by source text. -/

/-- Python `str.strip()`: remove leading and trailing whitespace. -/
def pyStrip (s : List Char) : List Char :=
  ((s.dropWhile isWS).reverse.dropWhile isWS).reverse

/-- Greedy `\s*` followed by the literal `\n` of ```` ```mermaid\s*\n ````:
with backtracking this consumes the whitespace run up to and including its
last `'\n'`, failing when the run contains no `'\n'`. -/
def matchWsNl : List Char → Option (List Char)
  | [] => none
  | c :: rest =>
    if isWS c then
      match matchWsNl rest with
      | some r => some r
      | none => if c = '\n' then some rest else none
    else none

/-- Lazy `(.*?)` up to the literal closing triple backtick: splits at the
earliest occurrence, returning the captured group and the remainder after
the backticks. -/
def takeUntilTicks : List Char → Option (List Char × List Char)
  | [] => none
  | c :: rest =>
    if c = '`' ∧ rest.take 2 = ['`', '`'] then some ([], rest.drop 2)
    else
      match takeUntilTicks rest with
      | some (code, r) => some (c :: code, r)
      | none => none

def mermaidLit : List Char := "```mermaid".toList

/-- The fence pattern attempted at one position: returns the captured group
and the remainder after the whole match. -/
def matchMermaidAt (s : List Char) : Option (List Char × List Char) :=
  if s.take 10 = mermaidLit then
    match matchWsNl (s.drop 10) with
    | none => none
    | some r => takeUntilTicks r
  else none

theorem matchWsNl_length {s r : List Char} (h : matchWsNl s = some r) :
    r.length < s.length := by
  induction s generalizing r with
  | nil => simp [matchWsNl] at h
  | cons c rest ih =>
    by_cases hws : isWS c
    · cases hrec : matchWsNl rest with
      | some r' =>
        simp only [matchWsNl, hws, if_true, hrec, Option.some.injEq] at h
        subst h
        have := ih hrec
        simp; omega
      | none =>
        simp only [matchWsNl, hws, if_true, hrec] at h
        by_cases hc : c = '\n'
        · simp only [hc, if_true, Option.some.injEq] at h
          subst h; simp
        · simp [hc] at h
    · simp [matchWsNl, hws] at h

theorem takeUntilTicks_length {s code r : List Char}
    (h : takeUntilTicks s = some (code, r)) : r.length < s.length := by
  induction s generalizing code r with
  | nil => simp [takeUntilTicks] at h
  | cons c rest ih =>
    simp only [takeUntilTicks] at h
    split at h
    · rename_i hcond
      simp only [Option.some.injEq, Prod.mk.injEq] at h
      obtain ⟨-, hr⟩ := h
      subst hr
      have h2 : rest.length ≥ 2 := by
        have := congrArg List.length hcond.2
        simp [List.length_take] at this
        omega
      simp [List.length_drop]; omega
    · cases hrec : takeUntilTicks rest with
      | some p =>
        obtain ⟨code', r'⟩ := p
        rw [hrec] at h
        simp only [Option.some.injEq, Prod.mk.injEq] at h
        obtain ⟨-, hr⟩ := h
        subst hr
        have := ih hrec
        simp; omega
      | none => rw [hrec] at h; cases h

theorem matchMermaidAt_length {s code after : List Char}
    (h : matchMermaidAt s = some (code, after)) : after.length < s.length := by
  by_cases hlit : s.take 10 = mermaidLit
  · simp only [matchMermaidAt, hlit, if_true] at h
    cases hws : matchWsNl (s.drop 10) with
    | none => simp [hws] at h
    | some r =>
      simp only [hws] at h
      have h1 := matchWsNl_length hws
      have h2 := takeUntilTicks_length h
      have h3 : s.length ≥ 10 := by
        have := congrArg List.length hlit
        simp [List.length_take, mermaidLit] at this
        omega
      simp [List.length_drop] at h1
      omega
  · simp [matchMermaidAt, hlit] at h

/-- A single regex match: absolute span offsets and the captured group. -/
structure MMatch where
  mstart : Nat
  mstop : Nat
  code : List Char
deriving DecidableEq

/-- Model of `pattern.finditer(content)`: all non-overlapping matches with absolute
offsets, leftmost first, resuming after each match. -/
def findMatchesFrom (s : List Char) (pos : Nat) : List MMatch :=
  match s with
  | [] => []
  | c :: rest =>
    match h : matchMermaidAt (c :: rest) with
    | some (code, after) =>
      MMatch.mk pos (pos + ((c :: rest).length - after.length)) code ::
        findMatchesFrom after (pos + ((c :: rest).length - after.length))
    | none => findMatchesFrom rest (pos + 1)
termination_by s.length
decreasing_by
  · exact matchMermaidAt_length h
  · simp

theorem findMatchesFrom_nil (pos : Nat) : findMatchesFrom [] pos = [] := by
  rw [findMatchesFrom]

theorem findMatchesFrom_match {c : Char} {rest code after : List Char}
    (h : matchMermaidAt (c :: rest) = some (code, after)) (pos : Nat) :
    findMatchesFrom (c :: rest) pos =
      MMatch.mk pos (pos + ((c :: rest).length - after.length)) code ::
        findMatchesFrom after (pos + ((c :: rest).length - after.length)) := by
  rw [findMatchesFrom]
  split
  · rename_i code' after' heq
    rw [h] at heq
    cases heq
    rfl
  · rename_i heq; rw [h] at heq; cases heq

theorem findMatchesFrom_nomatch {c : Char} {rest : List Char}
    (h : matchMermaidAt (c :: rest) = none) (pos : Nat) :
    findMatchesFrom (c :: rest) pos = findMatchesFrom rest (pos + 1) := by
  rw [findMatchesFrom]
  split
  · rename_i code' after' heq; rw [h] at heq; cases heq
  · rfl

-- temporary evaluation checks for the scanner
example : findMatchesFrom "hello".toList 0 = [] := by
  simp [findMatchesFrom, matchMermaidAt, mermaidLit]

example : findMatchesFrom "x```mermaid\ngraph TD\n```y".toList 0 =
    [MMatch.mk 1 24 "graph TD\n".toList] := by
  simp [findMatchesFrom, matchMermaidAt, mermaidLit, matchWsNl, takeUntilTicks, isWS]

/-- Model of `os.path.join` for POSIX (`posixpath.join`). -/
def pjoin (a b : List Char) : List Char :=
  if b.take 1 = ['/'] then b
  else if a = [] then b
  else if a.getLast? = some '/' then a ++ b
  else a ++ '/' :: b

/-- Model of `image_path.replace('\\', '/')`: forward slashes for Pandoc. -/
def slashify (s : List Char) : List Char :=
  s.map fun c => if c = '\\' then '/' else c

/-- Decimal digits of `n` (for the f-string interpolations). -/
def natDigits (n : Nat) : List Char := Nat.toDigits 10 n

/-- Path `os.path.join(temp_dir, 'mermaid_diagrams')`. -/
def diagramsDir (temp_dir : List Char) : List Char :=
  pjoin temp_dir "mermaid_diagrams".toList

/-- Path `os.path.join(diagrams_dir, f'mermaid_...png')` of diagram `n`. -/
def imgPath (dir : List Char) (n : Nat) : List Char :=
  pjoin dir ("mermaid_".toList ++ natDigits n ++ ".png".toList)

/-- The image reference `f'![Diagram {n}]({pandoc_path})'` substituted for
diagram `n`, with the path's backslashes replaced by forward slashes. -/
def imgRef (dir : List Char) (n : Nat) : List Char :=
  "![Diagram ".toList ++ natDigits n ++ "](".toList ++
    slashify (imgPath dir n) ++ ")".toList

/-- Splice `content[:start] + replacement + content[stop:]`. -/
def splice (c : List Char) (start stop : Nat) (repl : List Char) : List Char :=
  c.take start ++ repl ++ c.drop stop

/-- Pair each match with its 1-based document-order index: over
`enumerate(reversed(matches), 1)` the code computes
`diagram_num = len(matches) - i + 1`, which is exactly the document-order
position of the match, so the loop below walks `(numberFrom 1 ms).reverse`. -/
def numberFrom (n : Nat) : List MMatch → List (Nat × MMatch)
  | [] => []
  | m :: rest => (n, m) :: numberFrom (n + 1) rest

/-- A run of `render_mermaid_blocks`: the resulting text and its explicit
side effects (image-file writes, network requests by diagram source, and
whether the scratch diagrams directory was created). -/
structure MermaidOut (β : Type) where
  text : List Char
  writes : List (List Char × β)
  requests : List (List Char)
  madeDir : Bool

/-- The `for i, match in enumerate(reversed(matches), 1)` loop: the last
document-order match is processed first, so the original offsets of the
earlier matches stay valid in the updated text.  `render` models one
`requests.get(url)` / `raise_for_status()` / file-write round trip for a
stripped diagram source: `some img` when everything succeeds and the image
is written, `none` when any step raises (`except` branch: warning only, no
splice; the request was still attempted). -/
def renderLoop (render : List Char → Option β) (dir : List Char) :
    List (Nat × MMatch) → List Char →
      List Char × List (List Char × β) × List (List Char)
  | [], c => (c, [], [])
  | (n, m) :: rest, c =>
    let code := pyStrip m.code
    match render code with
    | some img =>
      let c1 := splice c m.mstart m.mstop (imgRef dir n)
      let out := renderLoop render dir rest c1
      (out.1, (imgPath dir n, img) :: out.2.1, code :: out.2.2)
    | none =>
      let out := renderLoop render dir rest c
      (out.1, out.2.1, code :: out.2.2)

/-- Model of `render_mermaid_blocks` (convert.py 165-211). -/
def render_mermaid_blocks (render : List Char → Option β)
    (content temp_dir : List Char) : MermaidOut β :=
  let ms := findMatchesFrom content 0
  if ms.isEmpty then
    -- `if not matches: return content` — before any directory creation,
    -- file write or network request
    MermaidOut.mk content [] [] false
  else
    let out := renderLoop render (diagramsDir temp_dir)
      ((numberFrom 1 ms).reverse) content
    MermaidOut.mk out.1 out.2.1 out.2.2 true

/-! ### Scanner invariants -/

/-- Matches lie in `[lo, hi]`, have ordered endpoints, and are pairwise
disjoint in document order. -/
def matchesOK (lo hi : Nat) : List MMatch → Prop
  | [] => True
  | m :: rest =>
    lo ≤ m.mstart ∧ m.mstart ≤ m.mstop ∧ m.mstop ≤ hi ∧
      matchesOK m.mstop hi rest

def nmatchesOK (lo hi : Nat) : List (Nat × MMatch) → Prop
  | [] => True
  | (_, m) :: rest =>
    lo ≤ m.mstart ∧ m.mstart ≤ m.mstop ∧ m.mstop ≤ hi ∧
      nmatchesOK m.mstop hi rest

theorem matchesOK_mono {lo lo' hi : Nat} (h : lo' ≤ lo) :
    ∀ {l : List MMatch}, matchesOK lo hi l → matchesOK lo' hi l
  | [], _ => trivial
  | m :: rest, hOK => by
    obtain ⟨h1, h2, h3, h4⟩ := hOK
    exact ⟨le_trans h h1, h2, h3, h4⟩

theorem nmatchesOK_mono {lo lo' hi : Nat} (h : lo' ≤ lo) :
    ∀ {l : List (Nat × MMatch)}, nmatchesOK lo hi l → nmatchesOK lo' hi l
  | [], _ => trivial
  | (_, _) :: _, hOK => by
    obtain ⟨h1, h2, h3, h4⟩ := hOK
    exact ⟨le_trans h h1, h2, h3, h4⟩

theorem numberFrom_ok {lo hi : Nat} :
    ∀ {l : List MMatch} (n : Nat), matchesOK lo hi l →
      nmatchesOK lo hi (numberFrom n l)
  | [], _, _ => trivial
  | m :: rest, n, hOK => by
    obtain ⟨h1, h2, h3, h4⟩ := hOK
    exact ⟨h1, h2, h3, numberFrom_ok (n + 1) h4⟩

/-- Soundness of the scanner: all matches returned from position `pos` over
a suffix `s` lie within `[pos, pos + s.length]`, ordered and disjoint. -/
theorem findMatchesFrom_ok (k : Nat) :
    ∀ (s : List Char), s.length ≤ k → ∀ (pos : Nat),
      matchesOK pos (pos + s.length) (findMatchesFrom s pos) := by
  induction k with
  | zero =>
    intro s hs pos
    have : s = [] := List.length_eq_zero.mp (Nat.le_zero.mp hs)
    subst this
    simp [findMatchesFrom_nil, matchesOK]
  | succ k ih =>
    intro s hs pos
    cases s with
    | nil => simp [findMatchesFrom_nil, matchesOK]
    | cons c rest =>
      cases hm : matchMermaidAt (c :: rest) with
      | some p =>
        obtain ⟨code, after⟩ := p
        rw [findMatchesFrom_match hm]
        have hlt := matchMermaidAt_length hm
        have hafter : after.length ≤ k := by
          simp at hs hlt ⊢
          omega
        have hrec := ih after hafter (pos + ((c :: rest).length - after.length))
        refine ⟨le_refl _, Nat.le_add_right _ _,
          Nat.add_le_add_left (Nat.sub_le _ _) _, ?_⟩
        have heq : pos + ((c :: rest).length - after.length) + after.length =
            pos + (c :: rest).length := by
          simp at hlt ⊢
          omega
        rw [heq] at hrec
        exact hrec
      | none =>
        rw [findMatchesFrom_nomatch hm]
        have hrec := ih rest (by simp at hs; omega) (pos + 1)
        have heq : pos + 1 + rest.length = pos + (c :: rest).length := by
          simp; omega
        rw [heq] at hrec
        exact matchesOK_mono (by omega) hrec

/-! ### Document-order substitution -/

/-- Shift absolute offsets down by `k` (to re-anchor after a prefix). -/
def shiftM (k : Nat) : List (Nat × MMatch) → List (Nat × MMatch)
  | [] => []
  | (n, m) :: rest =>
    (n, MMatch.mk (m.mstart - k) (m.mstop - k) m.code) :: shiftM k rest

theorem shiftM_length (k : Nat) (l : List (Nat × MMatch)) :
    (shiftM k l).length = l.length := by
  induction l with
  | nil => rfl
  | cons nm rest ih => obtain ⟨n, m⟩ := nm; simp [shiftM, ih]

/-- Left-to-right, document-order substitution: each numbered match span is
replaced by its image reference. -/
def docSubst (dir : List Char) (c : List Char) :
    List (Nat × MMatch) → List Char
  | [] => c
  | (n, m) :: rest =>
    c.take m.mstart ++ imgRef dir n ++
      docSubst dir (c.drop m.mstop) (shiftM m.mstop rest)
termination_by l => l.length
decreasing_by simp [shiftM_length]

theorem shiftM_shiftM {k e : Nat} (h : k ≤ e) (l : List (Nat × MMatch)) :
    shiftM (e - k) (shiftM k l) = shiftM e l := by
  induction l with
  | nil => rfl
  | cons nm rest ih =>
    obtain ⟨n, m⟩ := nm
    have e1 : m.mstart - k - (e - k) = m.mstart - e := by omega
    have e2 : m.mstop - k - (e - k) = m.mstop - e := by omega
    simp [shiftM, e1, e2, ih]

theorem numberFrom_length (n : Nat) (l : List MMatch) :
    (numberFrom n l).length = l.length := by
  induction l generalizing n with
  | nil => rfl
  | cons m rest ih => simp [numberFrom, ih]

/-- Re-anchoring `docSubst` after an untouched prefix of length `k`. -/
theorem docSubst_shift (dir : List Char) (l : List (Nat × MMatch))
    (c : List Char) (k : Nat) (hOK : nmatchesOK k c.length l) :
    docSubst dir c l = c.take k ++ docSubst dir (c.drop k) (shiftM k l) := by
  cases l with
  | nil => simp [docSubst, shiftM]
  | cons nm rest =>
    obtain ⟨n, m⟩ := nm
    obtain ⟨h1, h2, h3, h4⟩ := hOK
    simp only [docSubst, shiftM]
    rw [shiftM_shiftM (le_trans h1 h2) rest, List.drop_drop]
    have he : k + (m.mstop - k) = m.mstop := by omega
    rw [he]
    have htake : c.take k ++ (c.drop k).take (m.mstart - k) = c.take m.mstart := by
      conv_rhs => rw [show m.mstart = k + (m.mstart - k) by omega, List.take_add]
    rw [← htake]
    simp [List.append_assoc]

/-! ### The reverse-order loop computes the document-order substitution -/

theorem renderLoop_snoc_success {β : Type} (f : List Char → β)
    (dir : List Char) (xs : List (Nat × MMatch)) (n : Nat) (m : MMatch) :
    ∀ c, renderLoop (fun code => some (f code)) dir (xs ++ [(n, m)]) c =
      ((splice (renderLoop (fun code => some (f code)) dir xs c).1
          m.mstart m.mstop (imgRef dir n)),
        (renderLoop (fun code => some (f code)) dir xs c).2.1 ++
          [(imgPath dir n, f (pyStrip m.code))],
        (renderLoop (fun code => some (f code)) dir xs c).2.2 ++
          [pyStrip m.code]) := by
  induction xs with
  | nil => intro c; simp [renderLoop]
  | cons nm' xs' ih =>
    intro c
    obtain ⟨n', m'⟩ := nm'
    simp [renderLoop, ih]

theorem renderLoop_docSubst {β : Type} (f : List Char → β) (dir : List Char)
    (l : List (Nat × MMatch)) :
    ∀ (c : List Char), nmatchesOK 0 c.length l →
      renderLoop (fun code => some (f code)) dir l.reverse c =
        (docSubst dir c l,
          (l.reverse).map (fun nm => (imgPath dir nm.1, f (pyStrip nm.2.code))),
          (l.reverse).map (fun nm => pyStrip nm.2.code)) := by
  induction l with
  | nil => intro c _; simp [renderLoop, docSubst]
  | cons nm rest ih =>
    intro c hOK
    obtain ⟨n, m⟩ := nm
    obtain ⟨h1, h2, h3, h4⟩ := hOK
    rw [List.reverse_cons, renderLoop_snoc_success,
      ih c (nmatchesOK_mono (Nat.zero_le _) h4)]
    have hlen : (c.take m.mstop).length = m.mstop := by
      simp [List.length_take]
      omega
    have htext : splice (docSubst dir c rest) m.mstart m.mstop (imgRef dir n) =
        docSubst dir c ((n, m) :: rest) := by
      rw [docSubst_shift dir rest c m.mstop h4]
      simp only [splice, docSubst]
      rw [List.take_append_of_le_length (by rw [hlen]; exact h2),
        List.take_take, min_eq_left h2, List.drop_left' hlen]
    rw [htext]
    simp [List.map_append]

theorem slashify_all_forward (p : List Char) :
    (slashify p).all (fun c => c != '\\') = true := by
  simp only [slashify, List.all_eq_true]
  intro x hx
  simp only [List.mem_map] at hx
  obtain ⟨c, -, rfl⟩ := hx
  by_cases hc : c = '\\' <;> simp [hc]

/-! ### C5 -/

/-- C5: when the rendering endpoint succeeds on every diagram
(`render = some ∘ f`), the returned text is the document-order substitution
of every fenced mermaid block by its image reference — the i-th block in
document order becomes `![Diagram i](...)` — the written files are exactly
`mermaid_i.png` under the scratch diagrams directory (one per block, written
in the reverse processing order), and the substituted path contains forward
slashes only.  The loop itself runs over `(numberFrom 1 ms).reverse`, i.e.
in reverse document order, which is what keeps the earlier matches' offsets
valid and makes the equality with the document-order substitution hold. -/
theorem render_mermaid_all_success {β : Type} (f : List Char → β)
    (content temp_dir : List Char) :
    (render_mermaid_blocks (fun code => some (f code)) content temp_dir).text =
        docSubst (diagramsDir temp_dir) content
          (numberFrom 1 (findMatchesFrom content 0)) ∧
      (render_mermaid_blocks (fun code => some (f code)) content temp_dir).writes =
        ((numberFrom 1 (findMatchesFrom content 0)).reverse).map
          (fun nm => (imgPath (diagramsDir temp_dir) nm.1, f (pyStrip nm.2.code))) ∧
      (render_mermaid_blocks (fun code => some (f code)) content temp_dir).writes.length =
        (findMatchesFrom content 0).length ∧
      ∀ p : List Char, (slashify p).all (fun c => c != '\\') = true := by
  have hOK : nmatchesOK 0 content.length
      (numberFrom 1 (findMatchesFrom content 0)) :=
    numberFrom_ok 1
      (by simpa using findMatchesFrom_ok content.length content (le_refl _) 0)
  by_cases hempty : (findMatchesFrom content 0).isEmpty
  · have he : findMatchesFrom content 0 = [] := by
      simpa [List.isEmpty_iff] using hempty
    refine ⟨?_, ?_, ?_, slashify_all_forward⟩ <;>
      simp [render_mermaid_blocks, he, numberFrom, docSubst]
  · have hloop := renderLoop_docSubst f (diagramsDir temp_dir)
      (numberFrom 1 (findMatchesFrom content 0)) content hOK
    refine ⟨?_, ?_, ?_, slashify_all_forward⟩ <;>
      simp [render_mermaid_blocks, hempty, hloop, numberFrom_length]

/-! ### C6 -/

theorem renderLoop_all_fail {β : Type} (dir : List Char) :
    ∀ (l : List (Nat × MMatch)) (c : List Char),
      renderLoop (β := β) (fun _ => none) dir l c =
        (c, [], l.map (fun nm => pyStrip nm.2.code)) := by
  intro l
  induction l with
  | nil => intro c; simp [renderLoop]
  | cons nm rest ih =>
    intro c
    obtain ⟨n, m⟩ := nm
    simp [renderLoop, ih]

/-- C6: when the rendering request fails for every block (the oracle
returns `none` for every diagram: network error, HTTP error status, timeout
or I/O failure in the per-block `try`), the returned text is the input text
unchanged, no image file is written, and yet every block was still attempted
(one request per block, none aborting the others) — the function returns
normally, so the overall conversion continues. -/
theorem render_mermaid_all_fail (β : Type) (content temp_dir : List Char) :
    (render_mermaid_blocks (β := β) (fun _ => none) content temp_dir).text =
        content ∧
      (render_mermaid_blocks (β := β) (fun _ => none) content temp_dir).writes = [] ∧
      (render_mermaid_blocks (β := β) (fun _ => none) content temp_dir).requests =
        ((numberFrom 1 (findMatchesFrom content 0)).reverse).map
          (fun nm => pyStrip nm.2.code) := by
  by_cases hempty : (findMatchesFrom content 0).isEmpty
  · have he : findMatchesFrom content 0 = [] := by
      simpa [List.isEmpty_iff] using hempty
    refine ⟨?_, ?_, ?_⟩ <;> simp [render_mermaid_blocks, he, numberFrom]
  · refine ⟨?_, ?_, ?_⟩ <;>
      simp [render_mermaid_blocks, hempty, renderLoop_all_fail]

/-! ### C10 -/

/-- C10: on a text containing no fenced mermaid block the function
returns the text unchanged and performs no side effect at all: the scratch
diagrams directory is not created, no file is written and no network
request is made (`if not matches: return content` runs before
`os.makedirs`). -/
theorem render_mermaid_no_blocks {β : Type} (render : List Char → Option β)
    (content temp_dir : List Char) (h : findMatchesFrom content 0 = []) :
    render_mermaid_blocks render content temp_dir =
      MermaidOut.mk content [] [] false := by
  simp [render_mermaid_blocks, h]

-- Sanity check of the model against a hand/Python trace of the loop: the
-- two-block document is substituted in document order with numbered refs.
example :
    (render_mermaid_blocks (fun code => some code.length)
        "A\n```mermaid\ngraph\n```\nmid\n```mermaid\n x \n```\nZ".toList
        "t".toList).text =
      "A\n![Diagram 1](t/mermaid_diagrams/mermaid_1.png)\nmid\n![Diagram 2](t/mermaid_diagrams/mermaid_2.png)\nZ".toList := by
  simp [render_mermaid_blocks, findMatchesFrom, matchMermaidAt, mermaidLit,
    matchWsNl, takeUntilTicks, isWS, numberFrom, renderLoop, splice, imgRef,
    imgPath, diagramsDir, pjoin, slashify, natDigits, Nat.toDigits, pyStrip,
    Nat.toDigitsCore, Nat.digitChar]

/-- Witness for C10 on a concrete mermaid-free document. -/
theorem render_mermaid_no_blocks_witness :
    findMatchesFrom "# Title\nplain text\n".toList 0 = [] ∧
      render_mermaid_blocks (β := Unit) (fun _ => none)
          "# Title\nplain text\n".toList "/tmp/scratch".toList =
        MermaidOut.mk "# Title\nplain text\n".toList [] [] false :=
  ⟨by simp [findMatchesFrom, matchMermaidAt, mermaidLit],
    render_mermaid_no_blocks _ _ _
      (by simp [findMatchesFrom, matchMermaidAt, mermaidLit])⟩

/-! ## Markdown→output driver (`convert_md_to_output`, convert.py 214-288) -/

inductive DriverOutcome where
  | ok : DriverOutcome
  | err : DriverOutcome
deriving DecidableEq

/-- A run of `convert_md_to_output`: exit status (`ok` = success path,
`err` = any caught exception or missing input, `sys.exit(1)`), writes into
the scratch area (`tmp_output`, destroyed with the `TemporaryDirectory`),
and writes at the user-requested destination (`shutil.copy2` target). -/
structure DriverResult (β : Type) where
  outcome : DriverOutcome
  scratchWrites : List (List Char × β)
  destWrites : List (List Char × β)

/-- The Pandoc/WeasyPrint/xhtml2pdf dispatch of convert.py 262-275 on the
final pipelined text: for non-PDF output Pandoc alone (an exception exits);
for PDF with a usable WeasyPrint, Pandoc first and xhtml2pdf as the
fallback when it raises; for PDF without WeasyPrint, xhtml2pdf directly
(`none` models the call raising, including `pisa` reporting `result.err`). -/
def engineResult {β : Type} (output_format : List Char) (weasyUsable : Bool)
    (pandoc xhtml : List Char → Option β) (content : List Char) : Option β :=
  if output_format ≠ "pdf".toList then pandoc content
  else if weasyUsable then
    match pandoc content with
    | some b => some b
    | none => xhtml content
  else xhtml content

/-- Model of `convert_md_to_output` (convert.py 214-288), with the external world as
oracles: `inputExists` for the `os.path.exists` check, `render` for the
mermaid endpoint, `weasyUsable` for `_can_use_weasyprint`, and the two
engines.  The text pipeline is strip front matter → normalize rules →
render mermaid blocks; the engine writes the scratch `tmp_output` and only
after it returns does `shutil.copy2` place the same bytes at the
destination; every failure path exits before that copy. -/
def convert_md_to_output {β γ : Type} (inputExists : Bool) (raw : List Char)
    (render : List Char → Option γ) (output_format : List Char)
    (weasyUsable : Bool) (pandoc xhtml : List Char → Option β)
    (output_file tmp_dir : List Char) : DriverResult β :=
  if inputExists = false then
    -- log_error + sys.exit(1), before anything is read or written
    DriverResult.mk DriverOutcome.err [] []
  else
    let content0 := strip_yaml_front_matter raw
    let content1 := hruleSub content0
    let content2 := (render_mermaid_blocks render content1 tmp_dir).text
    let tmp_output := pjoin tmp_dir ("output.".toList ++ output_format)
    match engineResult output_format weasyUsable pandoc xhtml content2 with
    | some b =>
      DriverResult.mk DriverOutcome.ok [(tmp_output, b)] [(output_file, b)]
    | none => DriverResult.mk DriverOutcome.err [] []

/-! ### C9 -/

/-- C9: the destination file is written only on success, with exactly
the bytes that the engine (or its fallback chain) produced in the scratch
output file; whenever the conversion fails — missing input, engine
exception for any target format, or failure of both PDF engines — nothing
at all is written to the user-requested destination, so no partial file is
created and a pre-existing file there is untouched. -/
theorem convert_md_dest_writes {β γ : Type} (inputExists : Bool)
    (raw : List Char) (render : List Char → Option γ)
    (output_format : List Char) (weasyUsable : Bool)
    (pandoc xhtml : List Char → Option β) (output_file tmp_dir : List Char) :
    ((convert_md_to_output inputExists raw render output_format weasyUsable
          pandoc xhtml output_file tmp_dir).outcome = DriverOutcome.err ∧
        (convert_md_to_output inputExists raw render output_format weasyUsable
          pandoc xhtml output_file tmp_dir).destWrites = []) ∨
      ((convert_md_to_output inputExists raw render output_format weasyUsable
          pandoc xhtml output_file tmp_dir).outcome = DriverOutcome.ok ∧
        ∃ b,
          (convert_md_to_output inputExists raw render output_format
            weasyUsable pandoc xhtml output_file tmp_dir).destWrites =
              [(output_file, b)] ∧
          (convert_md_to_output inputExists raw render output_format
            weasyUsable pandoc xhtml output_file tmp_dir).scratchWrites =
              [(pjoin tmp_dir ("output.".toList ++ output_format), b)]) := by
  cases inputExists with
  | false => left; exact ⟨rfl, rfl⟩
  | true =>
    cases hres : engineResult output_format weasyUsable pandoc xhtml
        ((render_mermaid_blocks render
          (hruleSub (strip_yaml_front_matter raw)) tmp_dir).text) with
    | some b =>
      right
      refine ⟨?_, b, ?_, ?_⟩ <;> simp [convert_md_to_output, hres]
    | none =>
      left
      constructor <;> simp [convert_md_to_output, hres]

/-! ## xhtml2pdf link callback (`_make_xhtml2pdf_link_callback`, convert.py 65-106)

The callback resolves image references for the fallback PDF renderer.  The
filesystem is modelled by an `os.path.exists` oracle `fs`, and the working
directory used by `os.path.abspath` is an explicit parameter `cwd`.  The
`urllib.parse` and `posixpath` helpers the code calls are modelled below
(POSIX separator conventions; on the original Windows host `os.sep` would
be a backslash, but every claim here concerns the resolution order, which
is separator-independent). -/

def isAsciiAlpha (c : Char) : Bool :=
  ('a' ≤ c && c ≤ 'z') || ('A' ≤ c && c ≤ 'Z')

def isAsciiDigit (c : Char) : Bool := '0' ≤ c && c ≤ '9'

/-- Characters allowed in a URL scheme after its first letter. -/
def isSchemeChar (c : Char) : Bool :=
  isAsciiAlpha c || isAsciiDigit c || c = '+' || c = '-' || c = '.'

/-- Index of the first occurrence of a character (`str.find`). -/
def indexOf? (ch : Char) : List Char → Option Nat
  | [] => none
  | c :: rest => if c = ch then some 0 else (indexOf? ch rest).map (· + 1)

/-- Model of `urlsplit` scheme extraction: a scheme is present when the first `':'`
is preceded by a letter followed only by scheme characters; it is returned
lowercased together with the rest after the colon. -/
def schemeSplit (u : List Char) : Option (List Char × List Char) :=
  match indexOf? ':' u with
  | none => none
  | some i =>
    if 1 ≤ i then
      match u.take i with
      | [] => none
      | c0 :: crest =>
        if isAsciiAlpha c0 && crest.all isSchemeChar then
          some (asciiLower (u.take i), u.drop (i + 1))
        else none
    else none

def urlScheme (u : List Char) : List Char :=
  match schemeSplit u with
  | none => []
  | some (sch, _) => sch

/-- Split at the first occurrence of `ch`: `(before, after)`, the whole
list and `[]` when absent. -/
def splitAtFirst (ch : Char) (l : List Char) : List Char × List Char :=
  match indexOf? ch l with
  | none => (l, [])
  | some i => (l.take i, l.drop (i + 1))

/-- After `'//'`, the netloc extends to the first `'/'`, `'?'` or `'#'`;
this drops it, keeping the remainder. -/
def dropNetloc (l : List Char) : List Char :=
  l.dropWhile (fun c => !(c = '/' || c = '?' || c = '#'))

/-- Model of the `_splitparams` step of `urlparse`: parameters after `';'` are split from the
last path segment only. -/
def dropParams (l : List Char) : List Char :=
  match lastIndexOf '/' l with
  | some j =>
    match indexOf? ';' (l.drop j) with
    | none => l
    | some i => l.take (j + i)
  | none =>
    match indexOf? ';' l with
    | none => l
    | some i => l.take i

/-- Model of `urlparse(uri).path`: scheme and netloc removed, then fragment, query
and last-segment params split off. -/
def urlPath (u : List Char) : List Char :=
  let rest :=
    match schemeSplit u with
    | none => u
    | some (_, r) => r
  let rest2 :=
    if rest.take 2 = ['/', '/'] then dropNetloc (rest.drop 2) else rest
  let rest3 := (splitAtFirst '#' rest2).1
  let rest4 := (splitAtFirst '?' rest3).1
  dropParams rest4

/-! ### Percent decoding (`urllib.parse.unquote`, utf-8, errors='replace') -/

def hexVal (c : Char) : Option Nat :=
  if '0' ≤ c && c ≤ '9' then some (c.toNat - 48)
  else if 'a' ≤ c && c ≤ 'f' then some (c.toNat - 87)
  else if 'A' ≤ c && c ≤ 'F' then some (c.toNat - 55)
  else none

inductive UTok where
  | byte : Nat → UTok
  | chr : Char → UTok

/-- Tokenize: each `%xx` with two hex digits becomes a byte, anything else
(including a `%` not followed by two hex digits) stays a literal char. -/
def unquoteToks : List Char → List UTok
  | [] => []
  | '%' :: c1 :: c2 :: rest =>
    match hexVal c1, hexVal c2 with
    | some h1, some h2 => UTok.byte (16 * h1 + h2) :: unquoteToks rest
    | _, _ => UTok.chr '%' :: unquoteToks (c1 :: c2 :: rest)
  | c :: rest => UTok.chr c :: unquoteToks rest

def replChar : Char := Char.ofNat 0xFFFD

def isCont (b : Nat) : Bool := 0x80 ≤ b && b ≤ 0xBF

/-- UTF-8 decoding with `errors='replace'`: one U+FFFD per maximal subpart
of an ill-formed subsequence (CPython's policy), surrogate and overlong
encodings rejected via the constrained first-continuation ranges. -/
def utf8Decode : List Nat → List Char
  | [] => []
  | b :: rest =>
    if b < 0x80 then Char.ofNat b :: utf8Decode rest
    else if b < 0xC2 then replChar :: utf8Decode rest
    else if b < 0xE0 then
      match rest with
      | [] => [replChar]
      | b2 :: rest2 =>
        if isCont b2 then
          Char.ofNat ((b - 0xC0) * 0x40 + (b2 - 0x80)) :: utf8Decode rest2
        else replChar :: utf8Decode (b2 :: rest2)
    else if b < 0xF0 then
      match rest with
      | [] => [replChar]
      | b2 :: rest2 =>
        if (if b = 0xE0 then 0xA0 else 0x80) ≤ b2 ∧
            b2 ≤ (if b = 0xED then 0x9F else 0xBF) then
          match rest2 with
          | [] => [replChar]
          | b3 :: rest3 =>
            if isCont b3 then
              Char.ofNat ((b - 0xE0) * 0x1000 + (b2 - 0x80) * 0x40 +
                (b3 - 0x80)) :: utf8Decode rest3
            else replChar :: utf8Decode (b3 :: rest3)
        else replChar :: utf8Decode (b2 :: rest2)
    else if b < 0xF5 then
      match rest with
      | [] => [replChar]
      | b2 :: rest2 =>
        if (if b = 0xF0 then 0x90 else 0x80) ≤ b2 ∧
            b2 ≤ (if b = 0xF4 then 0x8F else 0xBF) then
          match rest2 with
          | [] => [replChar]
          | b3 :: rest3 =>
            if isCont b3 then
              match rest3 with
              | [] => [replChar]
              | b4 :: rest4 =>
                if isCont b4 then
                  Char.ofNat ((b - 0xF0) * 0x40000 + (b2 - 0x80) * 0x1000 +
                    (b3 - 0x80) * 0x40 + (b4 - 0x80)) :: utf8Decode rest4
                else replChar :: utf8Decode (b4 :: rest4)
            else replChar :: utf8Decode (b3 :: rest3)
        else replChar :: utf8Decode (b2 :: rest2)
    else replChar :: utf8Decode rest

/-- Flush maximal byte runs through the UTF-8 decoder, keeping literal
characters as they are. -/
def decodeToks : List UTok → List Nat → List Char
  | [], acc => utf8Decode acc.reverse
  | UTok.byte b :: rest, acc => decodeToks rest (b :: acc)
  | UTok.chr c :: rest, acc => utf8Decode acc.reverse ++ c :: decodeToks rest []

/-- Model of `urllib.parse.unquote` with its defaults. -/
def unquote (s : List Char) : List Char := decodeToks (unquoteToks s) []

-- Sanity checks against CPython:
example : unquote "a%20b".toList = "a b".toList := by decide
example : unquote "%E2%82%AC".toList = [Char.ofNat 0x20AC] := by decide
example : unquote "100%".toList = "100%".toList := by decide
example : unquote "%zz".toList = "%zz".toList := by decide

/-! ### POSIX path helpers -/

def isabs (p : List Char) : Bool := p.take 1 = ['/']

theorem indexOf?_lt_length {ch : Char} :
    ∀ {l : List Char} {i : Nat}, indexOf? ch l = some i → i < l.length := by
  intro l
  induction l with
  | nil => intro i h; simp [indexOf?] at h
  | cons c rest ih =>
    intro i h
    simp only [indexOf?] at h
    split at h
    · cases h; simp
    · cases hr : indexOf? ch rest with
      | none => rw [hr] at h; cases h
      | some j =>
        rw [hr] at h
        simp at h
        subst h
        have := ih hr
        simp
        omega

/-- Python `str.split('/')`: all components, empty ones included. -/
def splitOnSlash (l : List Char) : List (List Char) :=
  match h : indexOf? '/' l with
  | none => [l]
  | some i => l.take i :: splitOnSlash (l.drop (i + 1))
termination_by l.length
decreasing_by
  have h1 := indexOf?_lt_length h
  have h2 : (l.drop (i + 1)).length = l.length - (i + 1) := by
    simp [List.length_drop]
  omega

/-- One step of `posixpath.normpath`'s component loop; the accumulator is
kept in reverse order so `pop` is a tail. -/
def normStep (hasSlashes : Bool) (acc : List (List Char))
    (comp : List Char) : List (List Char) :=
  if comp = [] ∨ comp = ['.'] then acc
  else if ¬(comp = ['.', '.']) ∨ (hasSlashes = false ∧ acc = []) ∨
      (acc ≠ [] ∧ acc.head? = some ['.', '.']) then comp :: acc
  else
    match acc with
    | _ :: accRest => accRest
    | [] => []

def joinComps : List (List Char) → List Char
  | [] => []
  | [c] => c
  | c :: rest => c ++ '/' :: joinComps rest

/-- Model of `posixpath.normpath` (collapse `//`, `.` and `..`; an initial exactly
double slash is preserved, per POSIX). -/
def normpath (p : List Char) : List Char :=
  if p = [] then ['.']
  else
    let slashes : Nat :=
      if p.take 1 = ['/'] then
        if p.take 2 = ['/', '/'] ∧ ¬(p.take 3 = ['/', '/', '/']) then 2 else 1
      else 0
    let comps := (splitOnSlash p).foldl (normStep (decide (slashes ≠ 0))) []
    let out := List.replicate slashes '/' ++ joinComps comps.reverse
    if out = [] then ['.'] else out

/-- Model of `posixpath.abspath` with an explicit working directory. -/
def abspath (cwd p : List Char) : List Char :=
  if isabs p then normpath p else normpath (pjoin cwd p)

/-- Model of `_is_windows_drive_path` (convert.py 60-62): `^[a-zA-Z]:[\\/]`. -/
def isWinDrivePath (p : List Char) : Bool :=
  match p with
  | c0 :: c1 :: c2 :: _ => isAsciiAlpha c0 && c1 = ':' && (c2 = '\\' || c2 = '/')
  | _ => false

/-- The `re.match(r'^/[a-zA-Z]:', candidate)` test of the `file:` branch. -/
def isSlashDrive (p : List Char) : Bool :=
  match p with
  | c0 :: c1 :: c2 :: _ => c0 = '/' && isAsciiAlpha c1 && c2 = ':'
  | _ => false

/-- The `file:`-scheme branch of the callback (convert.py 80-86): decode
the URI path, strip the leading slash of a `/C:`-style Windows path, and
answer the candidate when it exists; otherwise fall through. -/
def fileStep (fs : List Char → Bool) (uri : List Char) : Option (List Char) :=
  if urlScheme uri = "file".toList then
    let cand := unquote (urlPath uri)
    let cand2 := if isSlashDrive cand then cand.drop 1 else cand
    if fs cand2 then some cand2 else none
  else none

/-- Normalization `[os.path.abspath(p) for p in search_paths if p]` (convert.py 70). -/
def normalizedSearchPaths (cwd : List Char) (search_paths : List (List Char)) :
    List (List Char) :=
  (search_paths.filter (fun p => !p.isEmpty)).map (abspath cwd)

/-- The `for base in [rel_hint, *normalized_search_paths]` loop (convert.py
96-101): skip empty bases, return the first absolutized join that exists. -/
def tryBases (fs : List Char → Bool) (cwd raw : List Char) :
    List (List Char) → Option (List Char)
  | [] => none
  | base :: rest =>
    if base = [] then tryBases fs cwd raw rest
    else
      let candidate := abspath cwd (pjoin base raw)
      if fs candidate then some candidate else tryBases fs cwd raw rest

/-- Model of `_make_xhtml2pdf_link_callback(search_paths)(uri, rel)`
(convert.py 65-106), following the code's own order of tests: empty and
HTTP(S) URIs unchanged; then the `file:` branch; then the decoded,
backslash-normalized reference as a Windows drive path, as an absolute
path, and joined against the rel hint and each search directory; an
unresolved reference is returned unchanged.  (`raw` uses `slashify`
because `.replace('\\', os.sep)` with the POSIX separator is exactly the
backslash→slash map.) -/
def link_callback (fs : List Char → Bool) (cwd : List Char)
    (search_paths : List (List Char)) (uri rel : List Char) : List Char :=
  if uri = [] then uri
  else if urlScheme uri = "http".toList ∨ urlScheme uri = "https".toList then
    uri
  else
    match fileStep fs uri with
    | some c => c
    | none =>
      let raw := slashify (unquote uri)
      if isWinDrivePath raw && fs raw then raw
      else if isabs raw && fs raw then raw
      else
        match tryBases fs cwd raw
            (unquote rel :: normalizedSearchPaths cwd search_paths) with
        | some c => c
        | none => uri

/-- The resolution procedure exactly as claim C8 words it: remote HTTP(S)
references untouched, otherwise try the reference as an absolute path,
then against the rel hint, then against each search directory in order,
first existing candidate wins, an unresolvable reference (including the
empty one) unchanged — with no `file:`-scheme and no Windows-drive step. -/
def resolve_claimed (fs : List Char → Bool) (cwd : List Char)
    (search_paths : List (List Char)) (uri rel : List Char) : List Char :=
  if uri = [] then uri
  else if urlScheme uri = "http".toList ∨ urlScheme uri = "https".toList then
    uri
  else
    let raw := slashify (unquote uri)
    if isabs raw && fs raw then raw
    else
      match tryBases fs cwd raw
          (unquote rel :: normalizedSearchPaths cwd search_paths) with
      | some c => c
      | none => uri

def firstSome : List (Option α) → Option α
  | [] => none
  | o :: rest =>
    match o with
    | some a => some a
    | none => firstSome rest

/-- The amended resolution procedure: the ordered candidate list now starts
with the `file:`-scheme resolution and the Windows-drive test, before the
absolute-path test, the rel hint and the search directories. -/
def resolve_amended (fs : List Char → Bool) (cwd : List Char)
    (search_paths : List (List Char)) (uri rel : List Char) : List Char :=
  if uri = [] then uri
  else if urlScheme uri = "http".toList ∨ urlScheme uri = "https".toList then
    uri
  else
    let raw := slashify (unquote uri)
    match firstSome
        [fileStep fs uri,
         if isWinDrivePath raw && fs raw then some raw else none,
         if isabs raw && fs raw then some raw else none,
         tryBases fs cwd raw
           (unquote rel :: normalizedSearchPaths cwd search_paths)] with
    | some c => c
    | none => uri

/-! ### C8 -/

/-- C8, counterexample: on a `file:`-scheme reference whose decoded
path exists, the code resolves it through the `file:` branch and returns
the filesystem path, while the claimed procedure (absolute → rel hint →
search path, else unchanged) would return the reference unchanged — so the
claimed description of the resolver is not the code's behaviour. -/
theorem link_callback_claim_cex :
    link_callback (fun p => p = "/tmp/x.png".toList) "/work".toList []
        "file:///tmp/x.png".toList [] = "/tmp/x.png".toList ∧
      resolve_claimed (fun p => p = "/tmp/x.png".toList) "/work".toList []
        "file:///tmp/x.png".toList [] = "file:///tmp/x.png".toList ∧
      link_callback (fun p => p = "/tmp/x.png".toList) "/work".toList []
          "file:///tmp/x.png".toList [] ≠
        resolve_claimed (fun p => p = "/tmp/x.png".toList) "/work".toList []
          "file:///tmp/x.png".toList [] := by
  refine ⟨by decide, by decide, by decide⟩

/-- C8 (amended): for every URI, rel hint, search path, existence
oracle and working directory, the fallback PDF resolver leaves remote
HTTP/HTTPS references untouched and otherwise returns the first existing
candidate among, in order: the `file:`-scheme reference's decoded path,
the backslash-normalized decoded reference as a Windows drive path, the
same as an absolute path, then its join against the rel hint and against
each directory of the resource search path; an unresolvable reference is
returned unchanged. -/
theorem link_callback_amended (fs : List Char → Bool) (cwd : List Char)
    (search_paths : List (List Char)) (uri rel : List Char) :
    link_callback fs cwd search_paths uri rel =
      resolve_amended fs cwd search_paths uri rel := by
  by_cases h0 : uri = []
  · simp [link_callback, resolve_amended, h0]
  · by_cases h1 : urlScheme uri = "http".toList ∨ urlScheme uri = "https".toList
    · rcases h1 with h1 | h1 <;> simp [link_callback, resolve_amended, h0, h1]
    · simp only [link_callback, resolve_amended, h0, h1, if_false]
      cases hfile : fileStep fs uri with
      | some c => simp [firstSome, hfile]
      | none =>
        simp only [firstSome, hfile]
        cases hwin : isWinDrivePath (slashify (unquote uri)) &&
            fs (slashify (unquote uri)) with
        | true => simp [hwin]
        | false =>
          simp only [hwin, Bool.false_eq_true, if_false]
          cases habs : isabs (slashify (unquote uri)) &&
              fs (slashify (unquote uri)) with
          | true => simp [habs]
          | false =>
            simp only [habs, Bool.false_eq_true, if_false]
            cases ht : tryBases fs cwd (slashify (unquote uri))
                (unquote rel :: normalizedSearchPaths cwd search_paths) with
            | some c => simp [ht]
            | none => simp [ht]

end Convert
